import Mathlib

/-!
# Verification of the HistoQC pipeline engine (`histoqc/qc_pipeline.py`)

A shallow embedding of the pipeline execution engine: the per-item worker,
the coordinator-side result-aggregation callback (batch rotation, headers,
row emission), the work-item enumerator, and the dispatch/retrieval loop of
`main`.  External collaborators (the `BaseImage` loader, the analysis step
functions, the filesystem and `glob`) are parameters of the embedding;
their observable interactions (directory creation/removal, step invocation,
file writes and flushes) are recorded as explicit events.
-/

namespace HistoQC

/-- `"\t".join(xs)` (Python `str.join` on tab). -/
def tabJoin : List String → String
  | [] => ""
  | [x] => x
  | x :: y :: xs => x ++ "\t" ++ tabJoin (y :: xs)

/-- `"|".join(xs)` (Python `str.join` on pipe). -/
def pipeJoin : List String → String
  | [] => ""
  | [x] => x
  | x :: y :: xs => x ++ "|" ++ pipeJoin (y :: xs)

/-- Number of occurrences of a character in a string. -/
def charCount (c : Char) (s : String) : Nat :=
  s.data.count c

/-- `s.split("\t")[0]`: the text before the first tab (Python `split` always
returns at least one field, the prefix before the first separator). -/
def firstCol (s : String) : String :=
  ⟨s.data.takeWhile (fun c => c != '\t')⟩

/-- `os.path.basename` for POSIX paths: the component after the last slash. -/
def basename (s : String) : String :=
  ⟨(s.data.reverse.takeWhile (fun c => c != '/')).reverse⟩

/-- Python `str.strip()`: remove leading and trailing whitespace (including
the newline that terminates a line read from a file). -/
def pyStrip (s : String) : String :=
  ⟨((s.data.dropWhile Char.isWhitespace).reverse.dropWhile
      Char.isWhitespace).reverse⟩

/-- `p.endswith("tsv")`. -/
def endsWithTsv (p : String) : Bool :=
  "tsv".data.isSuffixOf p.data

/-- Per-item mutable record (`BaseImage`, a dict subclass):
`s["output"]` (ordered output-field names), the field values, `s["warnings"]`,
`s["completed"]`, and the opaque `os_handle` (modelled as a presence flag).
A field absent from `values` is modelled as the empty string. -/
structure ItemState where
  output : List String
  values : List (String × String)
  warnings : List String
  completed : List String
  osHandle : Bool
deriving Repr, DecidableEq

/-- `s[field]` lookup in the per-item record. -/
def lookupField (vals : List (String × String)) (f : String) : String :=
  (((vals.find? (fun p => p.1 == f)).map Prod.snd)).getD ""

/-- `s.pop("os_handle", None)` before returning from the worker. -/
def popHandle (s : ItemState) : ItemState :=
  { s with osHandle := false }

/-- The data row for one item, without the trailing newline:
`"\t".join([str(s[field]) for field in s["output"]]) + "\t" + "|".join(s["warnings"])`. -/
def rowLine (s : ItemState) : String :=
  tabJoin (s.output.map (lookupField s.values)) ++ "\t" ++ pipeJoin s.warnings

/-- The full row as written to the report file. -/
def rowString (s : ItemState) : String :=
  rowLine s ++ "\n"

/-- The run-metadata block: `"\n".join(["#" + s for s in headers]) + "\n"`. -/
def metadataString (headers : List String) : String :=
  String.intercalate "\n" (headers.map (fun h => "#" ++ h)) ++ "\n"

/-- The column-header line:
`"#dataset:" + "\t".join(s["output"]) + "\twarnings\n"`. -/
def datasetHeader (s : ItemState) : String :=
  "#dataset:" ++ tabJoin s.output ++ "\twarnings\n"

/-- The `headers` metadata lines, in the order `main` appends them:
start time (line 129), resolved pipeline steps (line 98, via the
coordinator's `load_pipeline` call), output directory, config file,
command line (lines 171-173). -/
def headersList (startTime : String) (steps : List String)
    (outdirReal : String) (configReal : String) (argv : List String) :
    List String :=
  ["start_time:\t" ++ startTime,
   "pipeline: " ++ String.intercalate " " steps,
   "outdir:\t" ++ outdirReal,
   "config_file:\t" ++ configReal,
   "command_line_args:\t" ++ String.intercalate " " argv]

/-- `f"{args.outdir}{os.sep}results_{b}.tsv"`. -/
def resultsFileName (outdir : String) (b : Nat) : String :=
  outdir ++ "/results_" ++ toString b ++ ".tsv"

/-- Overwrite-policy resolution (lines 175-184): `"w"` (`true`) unless a
previous `results*.tsv` exists and `--force` is not set, in which case
`"a"` (`false`). -/
def overwriteFlag (prevResultsExist force : Bool) : Bool :=
  !prevResultsExist || force

/-- One write to a report file, tagged by the call site in `callback`:
the metadata block (line 234), the column-header line (line 236), or a
data row (lines 238-240). -/
inductive Wr where
  | meta (s : String)
  | header (s : String)
  | row (s : String)
deriving Repr, DecidableEq

/-- One open (or closed) report file: its name, its batch number, and the
writes made to it during this run, in order. -/
structure ReportFile where
  name : String
  batchNo : Nat
  writes : List Wr
deriving Repr, DecidableEq

/-- Coordinator-side aggregation state: the globals `nfiledone`, `batch`,
`first` plus the report files (`csv_report` is `cur`; rotated-away files
accumulate in `closed`). -/
structure AggState where
  nfiledone : Nat
  batch : Nat
  first : Bool
  closed : List ReportFile
  cur : ReportFile
deriving Repr, DecidableEq

/-- All report files touched in the run: the rotated-away ones followed by
the currently open one. -/
def AggState.allFiles (st : AggState) : List ReportFile :=
  st.closed ++ [st.cur]

/-- File-handle events emitted by one `callback` invocation, in order. -/
inductive Ev where
  | closeF (name : String)
  | openF (name : String)
  | writeEv (w : Wr)
  | flush
deriving Repr, DecidableEq

/-- Batch size: `args.batch` is either a finite positive int or the default
`float("inf")`; `nfiledone % float("inf") == 0` is false for `nfiledone > 0`,
so an infinite batch never rotates. -/
abbrev BatchSize := Option Nat

/-- Does the rotation guard `nfiledone and nfiledone % args.batch == 0`
hold? -/
def rotateNow (B : BatchSize) (nfiledone : Nat) : Bool :=
  nfiledone != 0 && (match B with
                     | some b => nfiledone % b == 0
                     | none => false)

/-- Initial aggregation state (lines 37-42 and 186-190): counters reset,
batch 1, `first = true`, and the first report file opened
(`results_1.tsv` for a finite batch size, `results.tsv` otherwise). -/
def initAgg (B : BatchSize) (outdir : String) : AggState :=
  { nfiledone := 0
    batch := 1
    first := true
    closed := []
    cur := { name := match B with
                     | some _ => resultsFileName outdir 1
                     | none => outdir ++ "/results.tsv"
             batchNo := 1
             writes := [] } }

/-- The aggregation `callback` (lines 216-243), with its file-handle events.
`wflag = true` models `overwrite_flag == "w"`.  A `none` argument (item was
skipped by the worker) returns immediately.  Otherwise: rotate the report
file when the completed-item counter is a positive multiple of the batch
size, write the metadata block and column-header line on the first write in
fresh-write mode, write the item's row, flush, and bump the counter. -/
def callbackEv (B : BatchSize) (wflag : Bool) (headers : List String)
    (outdir : String) (st : AggState) (sOpt : Option ItemState) :
    AggState × List Ev :=
  match sOpt with
  | none => (st, [])
  | some s =>
    let (st1, ev1) :=
      if rotateNow B st.nfiledone then
        ({ st with batch := st.batch + 1
                   closed := st.closed ++ [st.cur]
                   cur := { name := resultsFileName outdir (st.batch + 1)
                            batchNo := st.batch + 1
                            writes := [] }
                   first := true },
         [Ev.closeF st.cur.name, Ev.openF (resultsFileName outdir (st.batch + 1))])
      else (st, [])
    let (st2, ev2) :=
      if st1.first && wflag then
        ({ st1 with first := false
                    cur := { st1.cur with
                             writes := st1.cur.writes ++
                               [Wr.meta (metadataString headers),
                                Wr.header (datasetHeader s)] } },
         [Ev.writeEv (Wr.meta (metadataString headers)),
          Ev.writeEv (Wr.header (datasetHeader s))])
      else (st1, [])
    let st3 := { st2 with
                 cur := { st2.cur with
                          writes := st2.cur.writes ++ [Wr.row (rowString s)] }
                 nfiledone := st2.nfiledone + 1 }
    (st3, ev1 ++ ev2 ++ [Ev.writeEv (Wr.row (rowString s)), Ev.flush])

/-- The aggregation `callback`, state part only. -/
def callback (B : BatchSize) (wflag : Bool) (headers : List String)
    (outdir : String) (st : AggState) (sOpt : Option ItemState) : AggState :=
  (callbackEv B wflag headers outdir st sOpt).1

/-- Fold the callback over a completion-ordered list of task results. -/
def aggRun (B : BatchSize) (wflag : Bool) (headers : List String)
    (outdir : String) (rs : List (Option ItemState)) : AggState :=
  rs.foldl (callback B wflag headers outdir) (initAgg B outdir)

/-- A value in a step's parameter map: either a config string (from
`dict(lconfig.items(section))`) or one of the two coordination objects the
worker injects (`lock`, `shared_dict`). -/
inductive PVal where
  | str (s : String)
  | lock
  | shared
deriving Repr, DecidableEq

/-- Python dict lookup `m[k]` (as an option). -/
def dictGet (m : List (String × PVal)) (k : String) : Option PVal :=
  ((m.find? (fun p => p.1 == k)).map Prod.snd)

/-- Python dict assignment `m[k] = v`: overwrite in place if the key is
present, else append (insertion order preserved). -/
def dictSet (m : List (String × PVal)) (k : String) (v : PVal) :
    List (String × PVal) :=
  if m.any (fun p => p.1 == k) then
    m.map (fun p => if p.1 == k then (k, v) else p)
  else
    m ++ [(k, v)]

/-- One resolved pipeline step: the `module.function` identifier and its
parameter map (the callable itself is an external capability, supplied to
the worker as the `behave` argument). -/
structure PipelineStep where
  name : String
  params : List (String × PVal)
deriving Repr, DecidableEq

/-- `load_pipeline` (lines 92-114): resolve each configured step identifier
to (capability, parameter map), the map taken from the identifier's own
config section when present, else empty.  Module import and attribute
lookup are external; the parameter-map resolution is what is modelled. -/
def load_pipeline (steps : List String)
    (sections : List (String × List (String × PVal))) : List PipelineStep :=
  steps.map (fun process =>
    { name := process
      params := (((sections.find? (fun p => p.1 == process)).map Prod.snd)).getD [] })

/-- Lines 68-69: `process_params["lock"] = lock;`
`process_params["shared_dict"] = shared_dict`. -/
def injectShared (p : List (String × PVal)) : List (String × PVal) :=
  dictSet (dictSet p "lock" PVal.lock) "shared_dict" PVal.shared

/-- Filesystem actions performed by the worker. -/
inductive FsAct where
  | rmtree (path : String)
  | mkdir (path : String)
deriving Repr, DecidableEq

/-- The behaviour of the external step capabilities: given the step name,
the (injected) parameter map and the per-item record, either return the
mutated record or raise (an error message). -/
abbrev StepBehaviour := String → List (String × PVal) → ItemState →
  Except String ItemState

/-- The step loop of `worker` (lines 67-71): for each step, inject the lock
and shared map into its parameter map, invoke it, and append its name to
`s["completed"]` on return.  Returns the outcome, the process queue after
the loop (parameter maps mutated in place up to the last step reached), and
the names of the steps actually invoked. -/
def runSteps (behave : StepBehaviour) :
    List PipelineStep → ItemState →
    Except String ItemState × List PipelineStep × List String
  | [], s => (Except.ok s, [], [])
  | step :: rest, s =>
    let p := injectShared step.params
    match behave step.name p s with
    | Except.error e => (Except.error e, { step with params := p } :: rest, [step.name])
    | Except.ok s1 =>
      let s2 := { s1 with completed := s1.completed ++ [step.name] }
      let (r, rest2, inv) := runSteps behave rest s2
      (r, { step with params := p } :: rest2, step.name :: inv)

/-- How one worker task ended: it returned `None` (skipped: output
directory existed and `--force` was not set), it raised an exception
(decorated with the item path, line 73), or it returned the completed
record. -/
inductive TaskOutcome where
  | retNone
  | raised (fname : String) (err : String)
  | ok (s : ItemState)
deriving Repr, DecidableEq

/-- What one worker task did and returned. -/
structure WorkerOut where
  result : TaskOutcome
  fsActs : List FsAct
  loaderInvoked : Bool
  invokedSteps : List String
  queueAfter : List PipelineStep
deriving Repr, DecidableEq

/-- `worker` (lines 46-78).  `outdirExists` is whether the derived output
directory `args.outdir + os.sep + basename(fname)` exists at task start;
`loader` is the outcome of the external `BaseImage(fname, ...)` call.
If the directory exists: without `--force`, log and return `None` (the
loader and the steps are never invoked); with `--force`, remove the whole
directory first.  Then create the directory, load the item, run the step
loop, and either re-raise a decorated exception or return the record with
`os_handle` popped. -/
def worker (fname : String) (outdir : String) (force : Bool)
    (outdirExists : Bool) (loader : Except String ItemState)
    (behave : StepBehaviour) (steps : List PipelineStep) : WorkerOut :=
  let fname_outdir := outdir ++ "/" ++ basename fname
  if outdirExists && !force then
    { result := TaskOutcome.retNone
      fsActs := []
      loaderInvoked := false
      invokedSteps := []
      queueAfter := steps }
  else
    let acts := (if outdirExists then [FsAct.rmtree fname_outdir] else []) ++
      [FsAct.mkdir fname_outdir]
    match loader with
    | Except.error e =>
      { result := TaskOutcome.raised fname e
        fsActs := acts
        loaderInvoked := true
        invokedSteps := []
        queueAfter := steps }
    | Except.ok s0 =>
      let (r, steps2, inv) := runSteps behave steps s0
      match r with
      | Except.error e =>
        { result := TaskOutcome.raised fname e
          fsActs := acts
          loaderInvoked := true
          invokedSteps := inv
          queueAfter := steps2 }
      | Except.ok s =>
        { result := TaskOutcome.ok (popHandle s)
          fsActs := acts
          loaderInvoked := true
          invokedSteps := inv
          queueAfter := steps2 }

/-- `worker_error` (lines 81-89): the intended error callback, which would
append a `(fname, description)` failure record.  In the source the
`error_callback=worker_error` argument of `apply_async` (line 253) is
commented out, so this function is never invoked by the run. -/
def worker_error (failed : List (String × String)) (e : String × String) :
    List (String × String) :=
  failed ++ [(e.1, e.2)]

/-- Manifest parsing (lines 205-209): for each line of the `.tsv` file, a
line whose first character is `#` is skipped; any other line contributes
`basepath + line.strip().split("\t")[0]`.  `lines` are the logical lines of
the file (without their trailing newline, which Python's `strip()` removes
along with any other surrounding whitespace). -/
def manifestFiles (basepath : String) (lines : List String) : List String :=
  lines.filterMap (fun line =>
    if line.data.head? == some '#' then none
    else some (basepath ++ firstCol (pyStrip line)))

/-- The work-item enumerator (lines 192-211).  `basepathArg` is
`args.basepath`; the effective prefix `basepath` gets a trailing separator
appended when non-empty.  Three cases: more than one positional argument is
taken verbatim as the file list; a single argument ending in `tsv` is read
as a manifest; otherwise the single argument is a glob pattern, whose
expansion (an external filesystem query on `args.basepath + pattern`) is the
`globResult` parameter. -/
def enumerateFiles (basepathArg : String) (input_pattern : List String)
    (manifestLines : List String) (globResult : List String) : List String :=
  let basepath := if basepathArg.length > 0 then basepathArg ++ "/" else ""
  match input_pattern with
  | [] => []
  | [p] =>
    if endsWithTsv p then manifestFiles basepath manifestLines
    else globResult
  | _ :: _ :: _ => input_pattern

/-- The input checks of `main` (lines 149-151 and 197-199): with no
command-line arguments at all, or with an empty positional `input_pattern`
list, print usage and `sys.exit(1)` (modelled as `none`); otherwise
enumeration proceeds.  No other emptiness check exists: a pattern or
manifest that expands to zero items yields `some []`. -/
def enumerateOrExit (basepathArg : String) (input_pattern : List String)
    (manifestLines : List String) (globResult : List String) :
    Option (List String) :=
  if input_pattern.isEmpty then none
  else some (enumerateFiles basepathArg input_pattern manifestLines globResult)

/-- Line 248: each enumerated file is passed through `os.path.realpath`
(an external canonicalisation, parameter `realpath`) just before being
handed to the dispatcher. -/
def dispatchedFiles (realpath : String → String) (files : List String) :
    List String :=
  files.map realpath

/-- Outcome of one whole run of the dispatch/retrieval part of `main`
(lines 246-272), under the schedule in which the pool drains every
submitted task (invoking `callback` on each task's return value as it
completes) before the coordinator's retrieval loop runs. -/
structure RunOut where
  agg : AggState
  outcomes : List TaskOutcome
  failedList : List (String × String)
  escaped : Option (String × String)
  completedRun : Bool
deriving Repr, DecidableEq

/-- Phase state threaded through the dispatch loop: aggregation state, the
set of output directories existing so far (the worker's `os.makedirs` and
`shutil.rmtree` update it), the worker-side process queue (its parameter
maps are mutated in place across items of the same worker process), and the
task outcomes in submission order. -/
structure MainSt where
  agg : AggState
  dirs : List String
  queue : List PipelineStep
  outcomes : List TaskOutcome
deriving Repr, DecidableEq

/-- One dispatch iteration (lines 247-255): canonicalise the path, run the
task, and let the pool deliver the task's return value to `callback` — the
callback fires only when the task returns (with `None` for a skipped item);
a raised exception triggers no callback, because the
`error_callback=worker_error` argument (line 253) is commented out. -/
def dispatchOne (B : BatchSize) (wflag : Bool) (headers : List String)
    (outdir : String) (force : Bool) (loader : String → Except String ItemState)
    (behave : StepBehaviour) (realpath : String → String)
    (st : MainSt) (fname0 : String) : MainSt :=
  let fname := realpath fname0
  let d := outdir ++ "/" ++ basename fname
  let w := worker fname outdir force (st.dirs.contains d) (loader fname)
    behave st.queue
  let agg2 :=
    match w.result with
    | TaskOutcome.retNone => callback B wflag headers outdir st.agg none
    | TaskOutcome.ok s => callback B wflag headers outdir st.agg (some s)
    | TaskOutcome.raised _ _ => st.agg
  { agg := agg2
    dirs := if st.dirs.contains d then st.dirs else st.dirs ++ [d]
    queue := w.queueAfter
    outcomes := st.outcomes ++ [w.result] }

/-- The retrieval loop (lines 257-258): `r.get(...)` in submission order
re-raises the first raised exception inside the coordinator; there is no
surrounding `try`, so it escapes `main`. -/
def firstRaised : List TaskOutcome → Option (String × String)
  | [] => none
  | TaskOutcome.raised f e :: _ => some (f, e)
  | _ :: rest => firstRaised rest

/-- The dispatch/retrieval part of `main` (lines 246-272).  All tasks are
dispatched and their callbacks run; then the retrieval loop either
re-raises the first task exception (the run aborts: the pool shutdown, the
final report-file close and the failure summary at lines 260-272 are never
reached) or completes the run.  `failed` is only ever appended to by
`worker_error`, which is never registered, so it stays empty. -/
def runMain (B : BatchSize) (wflag : Bool) (headers : List String)
    (outdir : String) (force : Bool) (dirs0 : List String)
    (loader : String → Except String ItemState) (behave : StepBehaviour)
    (realpath : String → String) (steps : List PipelineStep)
    (files : List String) : RunOut :=
  let fin := files.foldl
    (dispatchOne B wflag headers outdir force loader behave realpath)
    { agg := initAgg B outdir
      dirs := dirs0
      queue := steps
      outcomes := [] }
  { agg := fin.agg
    outcomes := fin.outcomes
    failedList := []
    escaped := firstRaised fin.outcomes
    completedRun := (firstRaised fin.outcomes).isNone }

/-- C10: when a worker task returns no `ItemState` (the item was skipped),
the aggregation callback returns immediately: the aggregation state is
unchanged (no row, no header, counter not advanced) and no file event is
emitted, so batch rotation counts only items that produced a report row. -/
theorem callback_none_is_noop (B : BatchSize) (wflag : Bool)
    (headers : List String) (outdir : String) (st : AggState) :
    callbackEv B wflag headers outdir st none = (st, []) ∧
    callback B wflag headers outdir st none = st :=
  ⟨rfl, rfl⟩

/-- C3: for an item whose derived output directory already exists at task
start, without `--force` the task is a no-op: it returns `None`, performs no
filesystem action, never invokes the loader or any step, leaves the process
queue untouched — and the `None` return leaves the aggregation state
unchanged, so no report row is produced.  With `--force` the directory is
first deleted and then recreated, and the task otherwise behaves exactly as
on a fresh directory (the item is fully recomputed). -/
theorem worker_skip_noop_force_recomputes (fname outdir : String)
    (loader : Except String ItemState) (behave : StepBehaviour)
    (steps : List PipelineStep) :
    worker fname outdir false true loader behave steps =
      { result := TaskOutcome.retNone
        fsActs := []
        loaderInvoked := false
        invokedSteps := []
        queueAfter := steps } ∧
    worker fname outdir true true loader behave steps =
      { worker fname outdir true false loader behave steps with
          fsActs := FsAct.rmtree (outdir ++ "/" ++ basename fname) ::
            (worker fname outdir true false loader behave steps).fsActs } ∧
    (∀ (B : BatchSize) (wflag : Bool) (headers : List String)
       (od : String) (st : AggState),
       callback B wflag headers od st none = st) := by
  refine ⟨rfl, ?_, fun _ _ _ _ _ => rfl⟩
  unfold worker
  simp only [Bool.and_self, Bool.not_true, Bool.and_false, Bool.false_and,
    Bool.not_false, Bool.and_true, if_true, if_false, ite_true, ite_false]
  cases loader with
  | error e => rfl
  | ok s0 =>
    simp only
    rcases h : runSteps behave steps s0 with ⟨r, steps2, inv⟩
    cases r <;> rfl

/-- C7 fails as stated: a supplied input specification that expands to zero
items does not abort the run.  A manifest consisting of a single comment
line, and a glob pattern with no matches, both produce `some []` — the run
proceeds with zero items instead of exiting with status 1. -/
theorem empty_expansion_does_not_exit :
    enumerateOrExit "" ["files.tsv"] ["#comment"] [] = some [] ∧
    enumerateOrExit "" ["*.svs"] [] [] = some [] := by
  constructor <;> rfl

/-- C7 amended: the program exits with status 1 (usage error) exactly when
the positional input-specification list is empty (no input supplied); a
non-empty specification is never rejected for expanding to zero items. -/
theorem exit_iff_no_input (basepathArg : String) (input_pattern : List String)
    (manifestLines globResult : List String) :
    enumerateOrExit basepathArg input_pattern manifestLines globResult = none ↔
      input_pattern = [] := by
  unfold enumerateOrExit
  cases input_pattern <;> simp

/-- C6 fails as stated: the enumerated item list is not deduplicated.  A
manifest listing the same path twice enumerates it twice. -/
theorem enumeration_not_deduplicated :
    ¬ (enumerateFiles "" ["files.tsv"] ["slide.svs", "slide.svs"] []).Nodup := by
  decide

/-- C6 amended: the item list handed to the dispatcher preserves enumeration
order, with each entry canonicalised through `os.path.realpath` at dispatch
time; an explicit path list (more than one positional argument) is taken
verbatim (no base-path prefix); a single `tsv` argument is read as a
manifest with the base-path prefix (given a trailing separator when
non-empty) joined to every non-comment line's first column; any other
single argument is expanded by the filesystem glob.  No deduplication is
performed anywhere. -/
theorem dispatch_list_order_and_basepath (realpath : String → String)
    (bp : String) (ml g : List String) :
    (∀ files : List String, dispatchedFiles realpath files = files.map realpath) ∧
    (∀ (a b : String) (rest : List String),
      enumerateFiles bp (a :: b :: rest) ml g = a :: b :: rest) ∧
    (∀ p : String, endsWithTsv p = true →
      enumerateFiles bp [p] ml g =
        manifestFiles (if bp.length > 0 then bp ++ "/" else "") ml) ∧
    (∀ p : String, endsWithTsv p = false →
      enumerateFiles bp [p] ml g = g) := by
  refine ⟨fun _ => rfl, fun _ _ _ => rfl, ?_, ?_⟩ <;>
    intro p hp <;> simp [enumerateFiles, hp]

/-- C6 amended, witness at a concrete manifest input. -/
theorem dispatch_list_order_and_basepath_witness :
    enumerateFiles "/data" ["files.tsv"] ["a.svs", "#c", "b.svs"] [] =
      manifestFiles "/data/" ["a.svs", "#c", "b.svs"] := by
  have h := (dispatch_list_order_and_basepath id "/data"
    ["a.svs", "#c", "b.svs"] []).2.2.1 "files.tsv" (by decide)
  simpa using h

/-- C8: in a manifest, a line whose first character is `#` contributes zero
entries to the enumerated item list, and any other line (with no
surrounding whitespace beyond the stripped newline) contributes exactly one
entry: the base-path prefix joined with the line's first tab-separated
column. -/
theorem manifest_line_contribution (bp line : String) (rest : List String) :
    (line.data.head? = some '#' →
      manifestFiles bp (line :: rest) = manifestFiles bp rest) ∧
    (line.data.head? ≠ some '#' → pyStrip line = line →
      manifestFiles bp (line :: rest) =
        (bp ++ firstCol line) :: manifestFiles bp rest) := by
  constructor
  · intro h
    simp [manifestFiles, h]
  · intro h hs
    simp only [manifestFiles, List.filterMap_cons]
    rw [if_neg (by simpa using h), hs]

/-- C8, witness: a comment line and a two-column data line in a concrete
manifest. -/
theorem manifest_line_contribution_witness :
    manifestFiles "/d/" ["#hdr", "a.svs\tlabel"] = manifestFiles "/d/" ["a.svs\tlabel"] ∧
    manifestFiles "/d/" ["a.svs\tlabel"] = ["/d/" ++ firstCol "a.svs\tlabel"] := by
  constructor
  · exact (manifest_line_contribution "/d/" "#hdr" ["a.svs\tlabel"]).1 (by decide)
  · exact (manifest_line_contribution "/d/" "a.svs\tlabel" []).2
      (by decide) (by decide)

lemma charCount_append (c : Char) (a b : String) :
    charCount c (a ++ b) = charCount c a + charCount c b := by
  simp [charCount, String.data_append]

lemma charCount_tab_of_mk_single :
    charCount '\t' ⟨['\t']⟩ = 1 := by
  decide

lemma tabJoin_count (l : List String) (hl : l ≠ [])
    (h : ∀ x ∈ l, charCount '\t' x = 0) :
    charCount '\t' (tabJoin l) = l.length - 1 := by
  induction l with
  | nil => exact absurd rfl hl
  | cons x xs ih =>
    cases xs with
    | nil =>
      simpa [tabJoin] using h x (by simp)
    | cons y ys =>
      have hx : charCount '\t' x = 0 := h x (by simp)
      have hrest : ∀ z ∈ y :: ys, charCount '\t' z = 0 := by
        intro z hz
        exact h z (List.mem_cons_of_mem x hz)
      have := ih (by simp) hrest
      show charCount '\t' (x ++ "\t" ++ tabJoin (y :: ys)) = _
      rw [charCount_append, charCount_append, hx, this]
      have htab : charCount '\t' "\t" = 1 := by decide
      rw [htab]
      simp [Nat.succ_sub_one]
      omega

lemma pipeJoin_tab_free (l : List String)
    (h : ∀ x ∈ l, charCount '\t' x = 0) :
    charCount '\t' (pipeJoin l) = 0 := by
  induction l with
  | nil => decide
  | cons x xs ih =>
    cases xs with
    | nil => simpa [pipeJoin] using h x (by simp)
    | cons y ys =>
      have hx : charCount '\t' x = 0 := h x (by simp)
      have hrest : ∀ z ∈ y :: ys, charCount '\t' z = 0 := by
        intro z hz
        exact h z (List.mem_cons_of_mem x hz)
      show charCount '\t' (x ++ "|" ++ pipeJoin (y :: ys)) = 0
      rw [charCount_append, charCount_append, hx, ih hrest]
      decide

lemma tabJoin_concat (l : List String) (w : String) (hl : l ≠ []) :
    tabJoin (l ++ [w]) = tabJoin l ++ "\t" ++ w := by
  induction l with
  | nil => exact absurd rfl hl
  | cons x xs ih =>
    cases xs with
    | nil => rfl
    | cons y ys =>
      show tabJoin (x :: ((y :: ys) ++ [w])) = _
      have : tabJoin (x :: ((y :: ys) ++ [w])) =
          x ++ "\t" ++ tabJoin ((y :: ys) ++ [w]) := rfl
      rw [this, ih (by simp)]
      simp [tabJoin, String.ext_iff, String.data_append]

/-- C4: for every successfully completed item (whose field values and
warnings contain no tab character and whose output-field list is
non-empty), the callback writes exactly one report row, equal to the tab
join of the output-field values in output-field order followed by one
trailing column holding the warnings joined by `|` — hence exactly
(#output fields + 1) tab-separated columns, i.e. #output tab characters —
and the file is flushed immediately after the row, with no intervening
event. -/
theorem row_shape_and_flush (B : BatchSize) (wflag : Bool)
    (headers : List String) (outdir : String) (st : AggState)
    (s : ItemState) (hout : s.output ≠ [])
    (hv : ∀ f ∈ s.output, charCount '\t' (lookupField s.values f) = 0)
    (hw : ∀ w ∈ s.warnings, charCount '\t' w = 0) :
    rowLine s =
      tabJoin (s.output.map (lookupField s.values) ++ [pipeJoin s.warnings]) ∧
    charCount '\t' (rowLine s) = s.output.length ∧
    (∃ pre, (callbackEv B wflag headers outdir st (some s)).2 =
        pre ++ [Ev.writeEv (Wr.row (rowString s)), Ev.flush] ∧
      ∀ e ∈ pre, ∀ r, e ≠ Ev.writeEv (Wr.row r)) := by
  have hmap : ∀ x ∈ s.output.map (lookupField s.values),
      charCount '\t' x = 0 := by
    intro x hx
    rcases List.mem_map.mp hx with ⟨f, hf, rfl⟩
    exact hv f hf
  have hmapne : s.output.map (lookupField s.values) ≠ [] := by
    simpa using hout
  refine ⟨?_, ?_, ?_⟩
  · rw [rowLine, tabJoin_concat _ _ hmapne]
  · have htab : charCount '\t' "\t" = 1 := by decide
    rw [rowLine, charCount_append, charCount_append,
      tabJoin_count _ hmapne hmap, pipeJoin_tab_free _ hw, htab]
    have hpos : 0 < (s.output.map (lookupField s.values)).length :=
      List.length_pos.mpr hmapne
    simp only [List.length_map] at hpos ⊢
    omega
  · unfold callbackEv
    by_cases h1 : rotateNow B st.nfiledone
    · by_cases h2 : wflag
      · refine ⟨[Ev.closeF st.cur.name,
          Ev.openF (resultsFileName outdir (st.batch + 1)),
          Ev.writeEv (Wr.meta (metadataString headers)),
          Ev.writeEv (Wr.header (datasetHeader s))], ?_, ?_⟩
        · simp [h1, h2]
        · intro e he r
          simp only [List.mem_cons, List.mem_singleton] at he
          rcases he with rfl | rfl | rfl | rfl | h
          all_goals simp_all
      · refine ⟨[Ev.closeF st.cur.name,
          Ev.openF (resultsFileName outdir (st.batch + 1))], ?_, ?_⟩
        · simp [h1, h2]
        · intro e he r
          simp only [List.mem_cons, List.mem_singleton] at he
          rcases he with rfl | rfl | h
          all_goals simp_all
    · by_cases h2 : st.first && wflag
      · refine ⟨[Ev.writeEv (Wr.meta (metadataString headers)),
          Ev.writeEv (Wr.header (datasetHeader s))], ?_, ?_⟩
        · simp [h1, h2]
        · intro e he r
          simp only [List.mem_cons, List.mem_singleton] at he
          rcases he with rfl | rfl | h
          all_goals simp_all
      · refine ⟨[], ?_, by simp⟩
        simp [h1, h2]

/-- C4, witness at a concrete item with one output field and one warning. -/
theorem row_shape_and_flush_witness :
    rowLine ⟨["name"], [("name", "x.svs")], ["w1"], [], false⟩ =
      tabJoin (["x.svs"] ++ [pipeJoin ["w1"]]) ∧
    charCount '\t'
      (rowLine ⟨["name"], [("name", "x.svs")], ["w1"], [], false⟩) = 1 := by
  have h := row_shape_and_flush none true [] "o"
    (initAgg none "o") ⟨["name"], [("name", "x.svs")], ["w1"], [], false⟩
    (by decide) (by decide) (by decide)
  exact ⟨by simpa using h.1, by simpa using h.2.1⟩

lemma dictGet_map_overwrite (k kq : String) (v : PVal) (h : kq ≠ k)
    (m : List (String × PVal)) :
    dictGet (m.map (fun p => if p.1 == k then (k, v) else p)) kq =
      dictGet m kq := by
  induction m with
  | nil => rfl
  | cons p rest ih =>
    by_cases hp : p.1 == k
    · have hp1 : p.1 = k := by simpa using hp
      have hq1 : (k == kq) = false := by
        simp [Ne.symm h]
      have hq2 : (p.1 == kq) = false := by
        simp [hp1, Ne.symm h]
      simp only [List.map_cons, if_pos hp, dictGet, List.find?, hq1, hq2]
      exact ih
    · simp only [List.map_cons, if_neg hp, dictGet, List.find?]
      by_cases hq : p.1 == kq
      · simp [hq]
      · simp only [Bool.not_eq_true] at hq
        simp only [hq]
        exact ih

lemma dictGet_dictSet_ne (m : List (String × PVal)) (k kq : String)
    (v : PVal) (h : kq ≠ k) :
    dictGet (dictSet m k v) kq = dictGet m kq := by
  unfold dictSet
  by_cases hany : m.any (fun p => p.1 == k)
  · rw [if_pos hany]
    exact dictGet_map_overwrite k kq v h m
  · rw [if_neg hany]
    simp only [dictGet, List.find?_append]
    have hkq : List.find? (fun p => p.1 == kq) [(k, v)] = none := by
      have : (k == kq) = false := by simp [Ne.symm h]
      simp [List.find?, this]
    rw [hkq]
    cases List.find? (fun p => p.1 == kq) m <;> rfl

/-- The relation between a loaded step and the same step after the worker's
step loop has (possibly) reached it: either untouched, or with the `lock`
and `shared_dict` keys injected into its parameter map. -/
def StepEvolved (a b : PipelineStep) : Prop :=
  b = a ∨ b = { a with params := injectShared a.params }

lemma runSteps_queue_evolved (behave : StepBehaviour) :
    ∀ (steps : List PipelineStep) (s : ItemState),
      List.Forall₂ StepEvolved steps (runSteps behave steps s).2.1 := by
  intro steps
  induction steps with
  | nil => intro s; exact List.Forall₂.nil
  | cons step rest ih =>
    intro s
    cases hb : behave step.name (injectShared step.params) s with
    | error e =>
      have hq : (runSteps behave (step :: rest) s).2.1 =
          { step with params := injectShared step.params } :: rest := by
        simp only [runSteps, hb]
      rw [hq]
      exact List.Forall₂.cons (Or.inr rfl)
        (List.forall₂_same.mpr (fun x _ => Or.inl rfl))
    | ok s1 =>
      rcases h2 : runSteps behave rest
          { s1 with completed := s1.completed ++ [step.name] } with ⟨r, rest2, inv⟩
      have hq : (runSteps behave (step :: rest) s).2.1 =
          { step with params := injectShared step.params } :: rest2 := by
        simp only [runSteps, hb, h2]
      rw [hq]
      have hrest := ih { s1 with completed := s1.completed ++ [step.name] }
      rw [h2] at hrest
      exact List.Forall₂.cons (Or.inr rfl) hrest

/-- C9 fails as stated: per-item step invocation in the worker does mutate
the step's parameter map.  With a single step whose loaded parameter map is
empty and a step capability that simply succeeds, the process queue after
one task differs from the loaded queue: the map now holds the injected
`lock` and `shared_dict` bindings. -/
theorem worker_mutates_param_maps :
    (worker "x.svs" "o" false false
        (Except.ok ⟨["name"], [("name", "x")], [], [], true⟩)
        (fun _ _ s => Except.ok s)
        [{ name := "m.f", params := [] }]).queueAfter ≠
      [{ name := "m.f", params := [] }] := by
  decide

/-- C9 amended: every step's parameter map is resolved once at pipeline
load time (from the step's own config section, or empty), and the only
mutation the engine ever applies to it is the worker's injection of the
`lock` and `shared_dict` keys into the map of each step it reaches,
immediately before invoking it; the binding of every other key is
unchanged by that injection, and steps not reached are untouched. -/
theorem worker_param_map_mutation_is_injection_only
    (fname outdir : String) (force outdirExists : Bool)
    (loader : Except String ItemState) (behave : StepBehaviour)
    (steps : List PipelineStep) :
    List.Forall₂ StepEvolved steps
      (worker fname outdir force outdirExists loader behave steps).queueAfter ∧
    (∀ (p : List (String × PVal)) (k : String),
      k ≠ "lock" → k ≠ "shared_dict" →
      dictGet (injectShared p) k = dictGet p k) ∧
    (∀ (stepNames : List String)
       (sections : List (String × List (String × PVal))),
      load_pipeline stepNames sections = stepNames.map (fun process =>
        { name := process
          params := (((sections.find? (fun p => p.1 == process)).map
            Prod.snd)).getD [] })) := by
  refine ⟨?_, ?_, fun _ _ => rfl⟩
  · unfold worker
    by_cases h1 : outdirExists && !force
    · simp only [h1, if_true]
      exact List.forall₂_same.mpr (fun x _ => Or.inl rfl)
    · simp only [h1, if_false, Bool.false_eq_true]
      cases loader with
      | error e =>
        exact List.forall₂_same.mpr (fun x _ => Or.inl rfl)
      | ok s0 =>
        simp only
        rcases h : runSteps behave steps s0 with ⟨r, steps2, inv⟩
        have := runSteps_queue_evolved behave steps s0
        rw [h] at this
        cases r <;> exact this
  · intro p k h1 h2
    unfold injectShared
    rw [dictGet_dictSet_ne _ _ _ _ h2, dictGet_dictSet_ne _ _ _ _ h1]

/-- C9 amended, witness: at a concrete one-step queue, the evolved relation
holds and an unrelated key keeps its value through the injection. -/
theorem worker_param_map_mutation_witness :
    List.Forall₂ StepEvolved [{ name := "m.f", params := [] }]
      (worker "x.svs" "o" false false
        (Except.ok ⟨["name"], [("name", "x")], [], [], true⟩)
        (fun _ _ s => Except.ok s)
        [{ name := "m.f", params := [] }]).queueAfter ∧
    dictGet (injectShared [("thresh", PVal.str "0.5")]) "thresh" =
      dictGet [("thresh", PVal.str "0.5")] "thresh" := by
  have h := worker_param_map_mutation_is_injection_only "x.svs" "o"
    false false (Except.ok ⟨["name"], [("name", "x")], [], [], true⟩)
    (fun _ _ s => Except.ok s) [{ name := "m.f", params := [] }]
  exact ⟨h.1, h.2.1 [("thresh", PVal.str "0.5")] "thresh"
    (by decide) (by decide)⟩

/-- The coordinator-side counter/batch invariant: after `m` successful
completions, `nfiledone = m`, the batch number is `1 + (m - 1) / b`
(truncated subtraction), and the open file carries the current batch
number. -/
def AggInv (b : Nat) (st : AggState) (m : Nat) : Prop :=
  st.nfiledone = m ∧ st.batch = 1 + (m - 1) / b ∧ st.cur.batchNo = st.batch

lemma rotateNow_some_iff (b m : Nat) :
    rotateNow (some b) m = true ↔ (m ≠ 0 ∧ m % b = 0) := by
  simp [rotateNow]

lemma callback_writes_getLast (B : BatchSize) (w : Bool) (hs : List String)
    (od : String) (st : AggState) (s : ItemState) :
    (callback B w hs od st (some s)).cur.writes.getLast? =
      some (Wr.row (rowString s)) := by
  unfold callback callbackEv
  by_cases h1 : rotateNow B st.nfiledone <;>
    by_cases h2 : st.first <;> cases w <;>
      simp [h1, h2, List.getLast?_concat]

lemma callback_proj (B : BatchSize) (wflag : Bool) (hs : List String)
    (od : String) (st : AggState) (s : ItemState) :
    (callback B wflag hs od st (some s)).nfiledone = st.nfiledone + 1 ∧
    (callback B wflag hs od st (some s)).batch =
      (if rotateNow B st.nfiledone then st.batch + 1 else st.batch) ∧
    (callback B wflag hs od st (some s)).cur.batchNo =
      (if rotateNow B st.nfiledone then st.batch + 1 else st.cur.batchNo) := by
  unfold callback callbackEv
  by_cases h1 : rotateNow B st.nfiledone <;>
    by_cases h2 : st.first <;> cases wflag <;> simp [h1, h2]

lemma callback_rotate_facts (B : BatchSize) (wflag : Bool)
    (hs : List String) (od : String) (st : AggState) (s : ItemState)
    (hrot : rotateNow B st.nfiledone = true) :
    (callback B wflag hs od st (some s)).closed = st.closed ++ [st.cur] ∧
    (callback B wflag hs od st (some s)).cur.name =
      resultsFileName od (st.batch + 1) ∧
    (callback B wflag hs od st (some s)).first = !wflag ∧
    (callback B wflag hs od st (some s)).cur.writes =
      (if wflag then [Wr.meta (metadataString hs), Wr.header (datasetHeader s)]
       else []) ++ [Wr.row (rowString s)] := by
  unfold callback callbackEv
  cases wflag <;> simp [hrot]

lemma callback_step_inv (b : Nat) (w : Bool) (hs : List String)
    (od : String) (st : AggState) (s : ItemState) (m : Nat)
    (hinv : AggInv b st m) :
    AggInv b (callback (some b) w hs od st (some s)) (m + 1) := by
  obtain ⟨h1, h2, h3⟩ := hinv
  subst h1
  obtain ⟨p1, p2, p3⟩ := callback_proj (some b) w hs od st s
  have hdiv : st.nfiledone / b =
      (if rotateNow (some b) st.nfiledone then (st.nfiledone - 1) / b + 1
       else (st.nfiledone - 1) / b) := by
    by_cases hrot : rotateNow (some b) st.nfiledone = true
    · obtain ⟨hm0, hmod⟩ := (rotateNow_some_iff b st.nfiledone).mp hrot
      have hm1 : st.nfiledone - 1 + 1 = st.nfiledone :=
        Nat.succ_pred_eq_of_pos (Nat.pos_of_ne_zero hm0)
      have := Nat.succ_div_of_dvd (a := st.nfiledone - 1) (b := b)
        (by rw [hm1]; exact Nat.dvd_of_mod_eq_zero hmod)
      rw [hm1] at this
      simp [hrot, this]
    · rcases Decidable.em (st.nfiledone = 0) with h0 | h0
      · simp [h0, rotateNow]
      · have hnd : ¬ b ∣ st.nfiledone := by
          intro hdvd
          exact hrot ((rotateNow_some_iff b st.nfiledone).mpr
            ⟨h0, Nat.mod_eq_zero_of_dvd hdvd⟩)
        have hm1 : st.nfiledone - 1 + 1 = st.nfiledone :=
          Nat.succ_pred_eq_of_pos (Nat.pos_of_ne_zero h0)
        have := Nat.succ_div_of_not_dvd (a := st.nfiledone - 1) (b := b)
          (by rwa [hm1])
        rw [hm1] at this
        simp [hrot, this]
  refine ⟨p1, ?_, by rw [p3, h3, ← p2]⟩
  rw [p2, h2]
  by_cases hrot : rotateNow (some b) st.nfiledone = true <;>
    simp [hrot] at hdiv ⊢ <;> omega

lemma aggFold_inv (b : Nat) (w : Bool) (hs : List String) (od : String) :
    ∀ (L : List ItemState) (st : AggState) (m : Nat), AggInv b st m →
      AggInv b ((L.map some).foldl (callback (some b) w hs od) st)
        (m + L.length) := by
  intro L
  induction L with
  | nil => intro st m h; simpa using h
  | cons x xs ih =>
    intro st m h
    have hstep := callback_step_inv b w hs od st x m h
    have := ih (callback (some b) w hs od st (some x)) (m + 1) hstep
    simpa [Nat.add_comm, Nat.add_left_comm, Nat.add_assoc] using this

lemma aggRun_inv (b : Nat) (w : Bool) (hs : List String) (od : String)
    (L : List ItemState) :
    AggInv b (aggRun (some b) w hs od (L.map some)) L.length := by
  have hinit : AggInv b (initAgg (some b) od) 0 := by
    refine ⟨rfl, ?_, rfl⟩
    simp [initAgg]
  simpa using aggFold_inv b w hs od L (initAgg (some b) od) 0 hinit

/-- C2: with finite batch size `b ≥ 1`, the item that completes as number
`c = L.length + 1` (after the successes in `L`, in completion order and
independent of which items they are) has its row written as the last write
of the report file numbered `⌊(c-1)/b⌋ + 1 = L.length / b + 1`, and the
counter advances to `c`.  Moreover, whenever the completed-item counter is
a positive multiple of `b` at callback entry, the current report file is
closed, the next one — suffix incremented by one — is opened, and the
header-written flag is reset (so in fresh-write mode the new file starts
with the metadata block and header line before the row; in append mode the
flag stays set and nothing but the row is written). -/
theorem batch_rotation_lands_row (b : Nat) (hb : 1 ≤ b) (w : Bool)
    (hs : List String) (od : String) (L : List ItemState) (s : ItemState) :
    (callback (some b) w hs od (aggRun (some b) w hs od (L.map some))
        (some s)).cur.batchNo = L.length / b + 1 ∧
    (callback (some b) w hs od (aggRun (some b) w hs od (L.map some))
        (some s)).cur.writes.getLast? = some (Wr.row (rowString s)) ∧
    (callback (some b) w hs od (aggRun (some b) w hs od (L.map some))
        (some s)).nfiledone = L.length + 1 ∧
    (∀ st : AggState, 0 < st.nfiledone → st.nfiledone % b = 0 →
      (callback (some b) w hs od st (some s)).closed = st.closed ++ [st.cur] ∧
      (callback (some b) w hs od st (some s)).cur.name =
        resultsFileName od (st.batch + 1) ∧
      (callback (some b) w hs od st (some s)).cur.batchNo = st.batch + 1 ∧
      (callback (some b) w hs od st (some s)).first = !w ∧
      (callback (some b) w hs od st (some s)).cur.writes =
        (if w then [Wr.meta (metadataString hs), Wr.header (datasetHeader s)]
         else []) ++ [Wr.row (rowString s)]) := by
  have hinv := aggRun_inv b w hs od L
  have hstep := callback_step_inv b w hs od
    (aggRun (some b) w hs od (L.map some)) s L.length hinv
  obtain ⟨g1, g2, g3⟩ := hstep
  refine ⟨?_, callback_writes_getLast _ _ _ _ _ _, g1, ?_⟩
  · rw [g3, g2, Nat.add_sub_cancel, Nat.add_comm]
  · intro st hpos hmod
    have hrot : rotateNow (some b) st.nfiledone = true :=
      (rotateNow_some_iff b st.nfiledone).mpr ⟨Nat.pos_iff_ne_zero.mp hpos, hmod⟩
    refine ⟨?_, ?_, ?_, ?_, ?_⟩ <;>
      simp [callback, callbackEv, hrot] <;> cases w <;> simp

/-- C2, witness: batch size 2, two items already completed, so the third
callback entry rotates; the third row lands in file `⌊(3-1)/2⌋+1 = 2`. -/
theorem batch_rotation_lands_row_witness :
    (callback (some 2) true ["h"] "o"
        (aggRun (some 2) true ["h"] "o"
          ([⟨["f"], [("f", "1")], [], [], false⟩,
            ⟨["f"], [("f", "2")], [], [], false⟩].map some))
        (some ⟨["f"], [("f", "3")], [], [], false⟩)).cur.batchNo = 2 ∧
    (callback (some 2) true ["h"] "o"
        (aggRun (some 2) true ["h"] "o"
          ([⟨["f"], [("f", "1")], [], [], false⟩,
            ⟨["f"], [("f", "2")], [], [], false⟩].map some))
        (some ⟨["f"], [("f", "3")], [], [], false⟩)).closed =
      (aggRun (some 2) true ["h"] "o"
          ([⟨["f"], [("f", "1")], [], [], false⟩,
            ⟨["f"], [("f", "2")], [], [], false⟩].map some)).closed ++
        [(aggRun (some 2) true ["h"] "o"
          ([⟨["f"], [("f", "1")], [], [], false⟩,
            ⟨["f"], [("f", "2")], [], [], false⟩].map some)).cur] := by
  have h := batch_rotation_lands_row 2 (by decide) true ["h"] "o"
    [⟨["f"], [("f", "1")], [], [], false⟩, ⟨["f"], [("f", "2")], [], [], false⟩]
    ⟨["f"], [("f", "3")], [], [], false⟩
  refine ⟨by simpa using h.1, ?_⟩
  have h4 := h.2.2.2 (aggRun (some 2) true ["h"] "o"
    ([⟨["f"], [("f", "1")], [], [], false⟩,
      ⟨["f"], [("f", "2")], [], [], false⟩].map some)) (by decide) (by decide)
  exact h4.1

/-- A write list consisting only of data rows. -/
def rowsOnly (ws : List Wr) : Prop :=
  ∀ w ∈ ws, ∃ r, w = Wr.row r

/-- A report file's write list under the fresh-write policy: either nothing
was written yet, or the first write is the metadata block, the second is
the column-header line of the first item written to the file (its
output-field names plus a trailing warnings column), and everything after
is data rows. -/
def headerShape (hs : List String) (ws : List Wr) : Prop :=
  ws = [] ∨ ∃ s rest, ws = Wr.meta (metadataString hs) ::
    Wr.header (datasetHeader s) :: rest ∧ rowsOnly rest

/-- Aggregation invariant under the fresh-write policy: a file open with
`first = true` is still empty, a file open with `first = false` starts with
the metadata block and header line, and every rotated-away file has the
header shape. -/
def InvW (hs : List String) (st : AggState) : Prop :=
  (st.first = true → st.cur.writes = []) ∧
  (st.first = false → ∃ s rest, st.cur.writes = Wr.meta (metadataString hs) ::
    Wr.header (datasetHeader s) :: rest ∧ rowsOnly rest) ∧
  (∀ f ∈ st.closed, headerShape hs f.writes)

/-- Aggregation invariant under the append policy: every file of the run
holds only data rows. -/
def InvA (st : AggState) : Prop :=
  rowsOnly st.cur.writes ∧ ∀ f ∈ st.closed, rowsOnly f.writes

lemma rowsOnly_append_row (ws : List Wr) (h : rowsOnly ws) (r : String) :
    rowsOnly (ws ++ [Wr.row r]) := by
  intro w hw
  rcases List.mem_append.mp hw with h1 | h1
  · exact h w h1
  · exact ⟨r, by simpa using h1⟩

lemma invW_step (B : BatchSize) (hs : List String) (od : String)
    (st : AggState) (sOpt : Option ItemState) (hinv : InvW hs st) :
    InvW hs (callback B true hs od st sOpt) := by
  obtain ⟨i1, i2, i3⟩ := hinv
  cases sOpt with
  | none => exact ⟨i1, i2, i3⟩
  | some s =>
    have hcurShape : headerShape hs st.cur.writes := by
      cases hfst : st.first with
      | true => exact Or.inl (i1 hfst)
      | false =>
        rcases i2 hfst with ⟨t, rest, hw, hr⟩
        exact Or.inr ⟨t, rest, hw, hr⟩
    by_cases h1 : rotateNow B st.nfiledone
    · refine ⟨?_, ?_, ?_⟩
      · intro hf
        exfalso
        revert hf
        simp [callback, callbackEv, h1]
      · intro _
        refine ⟨s, [Wr.row (rowString s)], ?_, ?_⟩
        · simp [callback, callbackEv, h1]
        · intro w hw
          exact ⟨rowString s, by simpa using hw⟩
      · intro f hf
        have : f ∈ st.closed ++ [st.cur] := by
          simpa [callback, callbackEv, h1] using hf
        rcases List.mem_append.mp this with h2 | h2
        · exact i3 f h2
        · have : f = st.cur := by simpa using h2
          exact this ▸ hcurShape
    · cases hfst : st.first with
      | true =>
        refine ⟨?_, ?_, ?_⟩
        · intro hf
          exfalso
          revert hf
          simp [callback, callbackEv, h1, hfst]
        · intro _
          refine ⟨s, [Wr.row (rowString s)], ?_, ?_⟩
          · simp [callback, callbackEv, h1, hfst, i1 hfst]
          · intro w hw
            exact ⟨rowString s, by simpa using hw⟩
        · intro f hf
          have : f ∈ st.closed := by
            simpa [callback, callbackEv, h1, hfst] using hf
          exact i3 f this
      | false =>
        rcases i2 hfst with ⟨t, rest, hw, hr⟩
        refine ⟨?_, ?_, ?_⟩
        · intro hf
          exfalso
          revert hf
          simp [callback, callbackEv, h1, hfst]
        · intro _
          refine ⟨t, rest ++ [Wr.row (rowString s)], ?_, ?_⟩
          · simp [callback, callbackEv, h1, hfst, hw]
          · exact rowsOnly_append_row rest hr _
        · intro f hf
          have : f ∈ st.closed := by
            simpa [callback, callbackEv, h1, hfst] using hf
          exact i3 f this

lemma invA_step (B : BatchSize) (hs : List String) (od : String)
    (st : AggState) (sOpt : Option ItemState) (hinv : InvA st) :
    InvA (callback B false hs od st sOpt) := by
  obtain ⟨i1, i2⟩ := hinv
  cases sOpt with
  | none => exact ⟨i1, i2⟩
  | some s =>
    by_cases h1 : rotateNow B st.nfiledone
    · refine ⟨?_, ?_⟩
      · have : (callback B false hs od st (some s)).cur.writes =
            [Wr.row (rowString s)] := by
          simp [callback, callbackEv, h1]
        rw [this]
        intro w hw
        exact ⟨rowString s, by simpa using hw⟩
      · intro f hf
        have : f ∈ st.closed ++ [st.cur] := by
          simpa [callback, callbackEv, h1] using hf
        rcases List.mem_append.mp this with h2 | h2
        · exact i2 f h2
        · have : f = st.cur := by simpa using h2
          exact this ▸ i1
    · refine ⟨?_, ?_⟩
      · have : (callback B false hs od st (some s)).cur.writes =
            st.cur.writes ++ [Wr.row (rowString s)] := by
          simp [callback, callbackEv, h1]
        rw [this]
        exact rowsOnly_append_row _ i1 _
      · intro f hf
        have : f ∈ st.closed := by
          simpa [callback, callbackEv, h1] using hf
        exact i2 f this

lemma invW_fold (B : BatchSize) (hs : List String) (od : String) :
    ∀ (rs : List (Option ItemState)) (st : AggState), InvW hs st →
      InvW hs (rs.foldl (callback B true hs od) st) := by
  intro rs
  induction rs with
  | nil => intro st h; exact h
  | cons x xs ih =>
    intro st h
    exact ih _ (invW_step B hs od st x h)

lemma invA_fold (B : BatchSize) (hs : List String) (od : String) :
    ∀ (rs : List (Option ItemState)) (st : AggState), InvA st →
      InvA (rs.foldl (callback B false hs od) st) := by
  intro rs
  induction rs with
  | nil => intro st h; exact h
  | cons x xs ih =>
    intro st h
    exact ih _ (invA_step B hs od st x h)

/-- C5: under the fresh-write policy, every report file of the run to which
anything was written starts with the comment-prefixed run-metadata block
(start time, resolved step list, output directory, config source, full
invocation — the `headersList` lines) followed by one header line (the
first written item's output-field names plus a trailing warnings column),
and everything after is data rows; under the append policy (previous
results present, no force), no metadata and no header line is ever written
to any report file of the run. -/
theorem header_lines_policy (B : BatchSize) (startTime : String)
    (stepNames : List String) (odr cfg : String) (argv : List String)
    (od : String) (rs : List (Option ItemState))
    (prevResults force : Bool) :
    (overwriteFlag prevResults force = true →
      ∀ f ∈ (aggRun B (overwriteFlag prevResults force)
        (headersList startTime stepNames odr cfg argv) od rs).allFiles,
      headerShape (headersList startTime stepNames odr cfg argv) f.writes) ∧
    (overwriteFlag prevResults force = false →
      ∀ f ∈ (aggRun B (overwriteFlag prevResults force)
        (headersList startTime stepNames odr cfg argv) od rs).allFiles,
      rowsOnly f.writes) := by
  constructor
  · intro hw f hf
    rw [hw] at hf
    simp only [AggState.allFiles] at hf
    have hinit : InvW (headersList startTime stepNames odr cfg argv)
        (initAgg B od) := by
      refine ⟨fun _ => rfl, fun h => by simp [initAgg] at h, fun f hf => ?_⟩
      simp [initAgg] at hf
    have hend := invW_fold B (headersList startTime stepNames odr cfg argv)
      od rs (initAgg B od) hinit
    rcases List.mem_append.mp hf with h2 | h2
    · exact hend.2.2 f h2
    · have hfc : f = (aggRun B true (headersList startTime stepNames odr
          cfg argv) od rs).cur := by
        simpa [aggRun] using h2
      subst hfc
      cases hfst : (aggRun B true (headersList startTime stepNames odr
          cfg argv) od rs).first with
      | true => exact Or.inl (hend.1 hfst)
      | false =>
        rcases hend.2.1 hfst with ⟨t, rest, hw2, hr⟩
        exact Or.inr ⟨t, rest, hw2, hr⟩
  · intro hw f hf
    rw [hw] at hf
    simp only [AggState.allFiles] at hf
    have hinit : InvA (initAgg B od) := by
      refine ⟨fun w hw2 => ?_, fun f hf2 => ?_⟩
      · simp [initAgg] at hw2
      · simp [initAgg] at hf2
    have hend := invA_fold B (headersList startTime stepNames odr cfg argv)
      od rs (initAgg B od) hinit
    rcases List.mem_append.mp hf with h2 | h2
    · exact hend.2 f h2
    · have hfc : f = (aggRun B false (headersList startTime stepNames odr
          cfg argv) od rs).cur := by
        simpa [aggRun] using h2
      subst hfc
      exact hend.1

/-- C5, witness: a one-item fresh-write run (no previous results) has the
header shape on its only file, and a one-item append run (previous results
and no force) has only rows. -/
theorem header_lines_policy_witness :
    headerShape (headersList "t0" ["m.f"] "od" "cfg" ["qc"])
      ((aggRun none (overwriteFlag false false)
        (headersList "t0" ["m.f"] "od" "cfg" ["qc"]) "o"
        [some ⟨["name"], [("name", "x")], [], [], false⟩]).cur.writes) ∧
    rowsOnly ((aggRun none (overwriteFlag true false)
        (headersList "t0" ["m.f"] "od" "cfg" ["qc"]) "o"
        [some ⟨["name"], [("name", "x")], [], [], false⟩]).cur.writes) := by
  have h1 := (header_lines_policy none "t0" ["m.f"] "od" "cfg" ["qc"] "o"
    [some ⟨["name"], [("name", "x")], [], [], false⟩] false false).1
  have h2 := (header_lines_policy none "t0" ["m.f"] "od" "cfg" ["qc"] "o"
    [some ⟨["name"], [("name", "x")], [], [], false⟩] true false).2
  exact ⟨h1 (by decide) _ (by simp [AggState.allFiles]),
    h2 (by decide) _ (by simp [AggState.allFiles])⟩

/-- C1 is the intended behaviour but the code violates it: with
`error_callback=worker_error` commented out (line 253), a task exception is
not converted into a failure record — it is re-raised in the coordinator by
`r.get` (line 258) and escapes `main` as a live exception, and the `failed`
list (hence the run-end failure summary) stays empty.  Concretely, for items
`A` and `B` where step `m.s2` raises only for `A`: the run ends with the
exception `("A", "boom")` escaping, `A` appears in no failure summary
(`failedList = []`), the run never reaches its finalisation
(`completedRun = false`), and the report holds exactly the metadata block,
the header line and the single row for `B`. -/
theorem per_item_fault_escapes_run :
    (runMain none true ["h1"] "o" false []
        (fun f => Except.ok ⟨["name"], [("name", f)], [], [], true⟩)
        (fun n _ s =>
          if n == "m.s2" && lookupField s.values "name" == "A" then
            Except.error "boom"
          else Except.ok s)
        (fun f => f)
        [{ name := "m.s1", params := [] }, { name := "m.s2", params := [] }]
        ["A", "B"]).escaped = some ("A", "boom") ∧
    (runMain none true ["h1"] "o" false []
        (fun f => Except.ok ⟨["name"], [("name", f)], [], [], true⟩)
        (fun n _ s =>
          if n == "m.s2" && lookupField s.values "name" == "A" then
            Except.error "boom"
          else Except.ok s)
        (fun f => f)
        [{ name := "m.s1", params := [] }, { name := "m.s2", params := [] }]
        ["A", "B"]).failedList = [] ∧
    (runMain none true ["h1"] "o" false []
        (fun f => Except.ok ⟨["name"], [("name", f)], [], [], true⟩)
        (fun n _ s =>
          if n == "m.s2" && lookupField s.values "name" == "A" then
            Except.error "boom"
          else Except.ok s)
        (fun f => f)
        [{ name := "m.s1", params := [] }, { name := "m.s2", params := [] }]
        ["A", "B"]).completedRun = false ∧
    (runMain none true ["h1"] "o" false []
        (fun f => Except.ok ⟨["name"], [("name", f)], [], [], true⟩)
        (fun n _ s =>
          if n == "m.s2" && lookupField s.values "name" == "A" then
            Except.error "boom"
          else Except.ok s)
        (fun f => f)
        [{ name := "m.s1", params := [] }, { name := "m.s2", params := [] }]
        ["A", "B"]).agg.cur.writes =
      [Wr.meta "#h1\n", Wr.header "#dataset:name\twarnings\n",
       Wr.row "B\t\n"] := by
  refine ⟨?_, rfl, ?_, ?_⟩ <;> decide

end HistoQC
